import Mathlib

/-!
Verification development for the httph typed request/response adapter layer
(package httph, file httph.go). The Go adapters are generic over a request
shape Req and response shape Res; we embed them shallowly: the JSON codec,
the application function and the optional capabilities (SizeLimited,
Validatable, StatusCoded) become explicit parameters, and each handler is a
pure function from its inputs to the single HTTP response it writes together
with a trace of lifecycle stage events.
-/

set_option autoImplicit false

namespace Httph

/-- A complete HTTP response: status code and full body, as committed to the
transport sink. -/
structure HttpResponse where
  status : Nat
  body : String
  deriving DecidableEq, Repr

/-- Lifecycle stage events emitted by a handler while serving one request.
The Bool flag on decode, validate and encode records whether the stage
succeeded. A writeE event records a complete committed response. -/
inductive Ev where
  | decodeE (ok : Bool)
  | validateE (ok : Bool)
  | invokeE
  | encodeE (ok : Bool)
  | writeE (status : Nat) (body : String)
  deriving DecidableEq, Repr

/-- Canonical position of each stage in the lifecycle order; the write of the
final response is last. -/
def stageIdx : Ev → Nat
  | .decodeE _ => 0
  | .validateE _ => 1
  | .invokeE => 2
  | .encodeE _ => 3
  | .writeE _ _ => 4

/-- Whether a stage event represents a successful stage. -/
def evOk : Ev → Bool
  | .decodeE ok => ok
  | .validateE ok => ok
  | .encodeE ok => ok
  | _ => true

/-- The stage indices of the non-write events of a trace, in order. -/
def stageEvents (t : List Ev) : List Nat :=
  (t.filter (fun e => stageIdx e != 4)).map stageIdx

/-- A list of naturals is strictly increasing. -/
def strictIncr : List Nat → Bool
  | [] => true
  | [_] => true
  | a :: b :: t => Nat.blt a b && strictIncr (b :: t)

/-- After a failed stage event, no further stage is entered: only the write of
the error response may follow. -/
def noStageAfterFailure : List Ev → Bool
  | [] => true
  | e :: t =>
    if evOk e then noStageAfterFailure t
    else t.all (fun e2 => stageIdx e2 == 4)

/-- The committed responses of a trace, as (status, body) pairs. -/
def writes : List Ev → List (Nat × String)
  | [] => []
  | .writeE c b :: t => (c, b) :: writes t
  | _ :: t => writes t

/-- A Go error value, with the StatusCoded capability made explicit:
code is some c exactly when the error implements statusCodeGiver
(httph.go lines 59-62) and StatusCode() returns c. -/
structure GoErr where
  msg : String
  code : Option Nat
  deriving DecidableEq, Repr

/-- The body of http.Error: the message followed by a newline, plain text. -/
def httpError (code : Nat) (msg : String) : HttpResponse :=
  ⟨code, msg ++ "\n"⟩

/-- The serialized Error Envelope, as produced by writeResponse
(httph.go lines 127-134): json.Encoder output of errorResponse, a final
newline included. -/
def errorEnvelope (msg : String) : String :=
  "\x7b\"Error\":\"" ++ msg ++ "\"\x7d\n"

/-! ## Form adapter: the weak-typed decoder and FormHandler -/

/-- The field types exercised by the form decoder. -/
inductive FTy where
  | str
  | int
  | bool
  | strList
  deriving DecidableEq, Repr

/-- A decoded field value. -/
inductive FVal where
  | vStr (s : String)
  | vInt (n : Int)
  | vBool (b : Bool)
  | vStrList (xs : List String)
  deriving DecidableEq, Repr

/-- The zero value of each field type (Go zero values). -/
def zeroVal : FTy → FVal
  | .str => .vStr ""
  | .int => .vInt 0
  | .bool => .vBool false
  | .strList => .vStrList []

/-- A field of the target shape: name and type. -/
structure Field where
  name : String
  ty : FTy
  deriving DecidableEq, Repr

/-- A value in the prepared form map built by FormHandler: a single string or
an ordered list of strings. -/
inductive FormVal where
  | single (s : String)
  | multi (vs : List String)
  deriving DecidableEq, Repr

/-- FormHandler lines 35-42: from the parsed multi-valued mapping r.Form,
keys with more than one value keep the ordered list, others collapse to the
first value via Form.Get (the empty string when there is none). -/
def prepareForm : List (String × List String) → List (String × FormVal)
  | [] => []
  | (k, vs) :: rest =>
    if vs.length > 1 then (k, .multi vs) :: prepareForm rest
    else (k, .single (vs.headD "")) :: prepareForm rest

/-- ASCII case-insensitive string comparison, as mapstructure matches field
names to map keys. -/
def lowerEq (a b : String) : Bool :=
  a.data.map Char.toLower == b.data.map Char.toLower

/-- Case-insensitive key lookup, as mapstructure matches field names to map
keys. -/
def lookupCI (form : List (String × FormVal)) (name : String) : Option FormVal :=
  match form with
  | [] => none
  | (k, v) :: rest => if lowerEq k name then some v else lookupCI rest name

/-- Digits of a decimal numeral to a Nat; none when empty or a non-digit
appears. -/
def digitsToNat (cs : List Char) : Option Nat :=
  match cs with
  | [] => none
  | _ =>
    if cs.all Char.isDigit then
      some (cs.foldl (fun a c => a * 10 + (c.toNat - 48)) 0)
    else none

/-- The decimal fragment of the weak string-to-integer coercion
(strconv.ParseInt as used by mapstructure.WeakDecode): optional sign, then
decimal digits. -/
def parseGoInt (s : String) : Option Int :=
  match s.data with
  | '+' :: rest => (digitsToNat rest).map Int.ofNat
  | '-' :: rest => (digitsToNat rest).map (fun n => -(Int.ofNat n))
  | cs => (digitsToNat cs).map Int.ofNat

/-- strconv.ParseBool, used by the weak string-to-boolean coercion. -/
def parseGoBool : String → Option Bool
  | "1" | "t" | "T" | "true" | "TRUE" | "True" => some true
  | "0" | "f" | "F" | "false" | "FALSE" | "False" => some false
  | _ => none

/-- Readable name of a field type, for decode error messages. -/
def tyName : FTy → String
  | .str => "string"
  | .int => "int"
  | .bool => "bool"
  | .strList => "[]string"

/-- Weak coercion of a single string into a field of the given type. In the
source the error message wraps the field name in single quotes (cannot parse
<Field> as <type>); we keep the same shape without the quote characters. -/
def coerceSingle (name : String) (ty : FTy) (s : String) : Except String FVal :=
  match ty with
  | .str => .ok (.vStr s)
  | .int =>
    match parseGoInt s with
    | some n => .ok (.vInt n)
    | none => .error ("cannot parse " ++ name ++ " as int")
  | .bool =>
    match parseGoBool s with
    | some b => .ok (.vBool b)
    | none => .error ("cannot parse " ++ name ++ " as bool")
  | .strList => .ok (.vStrList [s])

/-- Weak coercion of an ordered list of strings: only an ordered-string-list
field accepts it, preserving order; scalar targets fail. -/
def coerceMulti (name : String) (ty : FTy) (vs : List String) : Except String FVal :=
  match ty with
  | .strList => .ok (.vStrList vs)
  | _ => .error ("cannot parse " ++ name ++ " as " ++ tyName ty)

/-- Decode one target field from the prepared form map: a missing key leaves
the zero value, a present value is weakly coerced. -/
def decodeField (form : List (String × FormVal)) (fld : Field) : Except String FVal :=
  match lookupCI form fld.name with
  | none => .ok (zeroVal fld.ty)
  | some (.single s) => coerceSingle fld.name fld.ty s
  | some (.multi vs) => coerceMulti fld.name fld.ty vs

/-- Models mapstructure.WeakDecode (a vendored dependency, not under the
package sources) for the field types the adapter exercises, with the
coercion rules of the weak decoder: each field of the shape is decoded from
the map, unknown map keys are ignored because only shape fields are
consulted. -/
def WeakDecode (shape : List Field) (form : List (String × FormVal)) :
    Except String (List FVal) :=
  match shape with
  | [] => .ok []
  | fld :: rest =>
    match decodeField form fld with
    | .error e => .error e
    | .ok v =>
      match WeakDecode rest form with
      | .error e => .error e
      | .ok vs => .ok (v :: vs)

/-- FormHandler (httph.go lines 27-57). Parameters embed the generic parts:
shape reifies the request struct, validateCap is the Validatable capability
of the decoded value (none when the type does not implement validator), app
is the application function returning whatever response it writes itself,
parsed is the outcome of r.ParseForm. -/
def FormHandler (shape : List Field)
    (validateCap : Option (List FVal → Option String))
    (app : List FVal → HttpResponse)
    (parsed : Except String (List (String × List String))) :
    HttpResponse × List Ev :=
  match parsed with
  | .error e =>
    (httpError 400 e, [Ev.writeE 400 (e ++ "\n")])
  | .ok form =>
    match WeakDecode shape (prepareForm form) with
    | .error e =>
      (httpError 400 e, [Ev.decodeE false, Ev.writeE 400 (e ++ "\n")])
    | .ok v =>
      match validateCap with
      | some f =>
        match f v with
        | some cause =>
          (httpError 400 ("invalid form: " ++ cause),
           [Ev.decodeE true, Ev.validateE false,
            Ev.writeE 400 ("invalid form: " ++ cause ++ "\n")])
        | none =>
          (app v,
           [Ev.decodeE true, Ev.validateE true, Ev.invokeE,
            Ev.writeE (app v).status (app v).body])
      | none =>
        (app v,
         [Ev.decodeE true, Ev.invokeE, Ev.writeE (app v).status (app v).body])

/-! ## JSON adapter -/

/-- The incoming body stream: the bytes it yields, then a terminal condition
(none is a clean EOF, some e a read error with message e). -/
structure BodyStream where
  data : List Char
  terr : Option String
  deriving DecidableEq, Repr

/-- http.MaxBytesReader with limit n, as observed by its consumer: a stream
within the limit is unchanged; a longer one delivers at most n bytes and
then the too-large read error (the reader probes one byte past the limit
upstream but truncates what it reports to the remaining allowance). -/
def maxBytesStream (n : Nat) (b : BodyStream) : BodyStream :=
  if b.data.length ≤ n then b
  else ⟨b.data.take n, some "http: request body too large"⟩

/-- JSONHandler lines 76-78: wrap the body in the limiter exactly when the
request shape implements maxSizeGiver. -/
def applyLimit : Option Nat → BodyStream → BodyStream
  | none, b => b
  | some n, b => maxBytesStream n b

/-- Configuration of the generic JSONHandler, embedding its type parameters
and capability probes: zero is the zero value of Req; maxSize is the
SizeLimited capability of the request shape; jdecode stands for the
json.Decoder run over the (possibly limited) stream; validate is the
Validatable capability of Req; h is the application function; encode stands
for json encoding of the response value into the buffer; resCode is the
StatusCoded capability of the response value. -/
structure JSONCfg (Req Res : Type) where
  zero : Req
  maxSize : Option Nat
  jdecode : BodyStream → Except String Req
  validate : Option (Req → Option String)
  h : Req → Except GoErr Res
  encode : Res → Except String String
  resCode : Res → Option Nat

/-- The JSONHandler pipeline from the invocation of the application function
onwards (httph.go lines 94-124): handler error with StatusCoded resolution,
encode to buffer with failure mapped to 500, success status resolution and
verbatim copy of the buffer. -/
def afterDecode {Req Res : Type} (cfg : JSONCfg Req Res) (req : Req) :
    HttpResponse × List Ev :=
  match cfg.h req with
  | .error err =>
    (⟨err.code.getD 500, errorEnvelope err.msg⟩,
     [Ev.invokeE, Ev.writeE (err.code.getD 500) (errorEnvelope err.msg)])
  | .ok res =>
    match cfg.encode res with
    | .error e =>
      (⟨500, errorEnvelope ("error encoding response body as JSON: " ++ e)⟩,
       [Ev.invokeE, Ev.encodeE false,
        Ev.writeE 500 (errorEnvelope ("error encoding response body as JSON: " ++ e))])
    | .ok buf =>
      (⟨(cfg.resCode res).getD 200, buf⟩,
       [Ev.invokeE, Ev.encodeE true,
        Ev.writeE ((cfg.resCode res).getD 200) buf])

/-- JSONHandler (httph.go lines 72-125): apply the size limit, peek one byte
(an empty stream, for whatever reason, skips decoding and keeps the zero
request), decode on a non-empty stream with failure mapped to 400, then run
the rest of the pipeline. NOTE: faithful to the source, the Validatable
capability in cfg.validate is never consulted. -/
def JSONHandler {Req Res : Type} (cfg : JSONCfg Req Res) (body : BodyStream) :
    HttpResponse × List Ev :=
  match (applyLimit cfg.maxSize body).data with
  | [] => afterDecode cfg cfg.zero
  | _ =>
    match cfg.jdecode (applyLimit cfg.maxSize body) with
    | .error e =>
      (⟨400, errorEnvelope ("error decoding request body as JSON: " ++ e)⟩,
       [Ev.decodeE false,
        Ev.writeE 400 (errorEnvelope ("error decoding request body as JSON: " ++ e))])
    | .ok req =>
      ((afterDecode cfg req).1, Ev.decodeE true :: (afterDecode cfg req).2)

/-- The decode stage of JSONHandler in isolation: the request value the
pipeline continues with, or the decode error. -/
def decodeStage {Req Res : Type} (cfg : JSONCfg Req Res) (body : BodyStream) :
    Except String Req :=
  match (applyLimit cfg.maxSize body).data with
  | [] => .ok cfg.zero
  | _ => cfg.jdecode (applyLimit cfg.maxSize body)

/-! ## Error-only adapter -/

/-- Modelled from the spec: ErrorHandler, the error-only adapter, is
referenced by the repository tests (TestErrorHandler) but its implementation
is not among the package sources. Spec section 4.6: invoke the function; on
nil error take no further action, whatever the function wrote stands; on a
non-nil error resolve the status via StatusCoded (default 500) and write a
plain-text body equal to the error message (http.Error framing, not the JSON
envelope). appWrote is the response the application function wrote itself,
if any; appErr its returned error. -/
def ErrorHandler (appWrote : Option HttpResponse) (appErr : Option GoErr) :
    Option HttpResponse × List Ev :=
  match appErr with
  | none =>
    match appWrote with
    | some r => (some r, [Ev.invokeE, Ev.writeE r.status r.body])
    | none => (none, [Ev.invokeE])
  | some err =>
    (some ⟨err.code.getD 500, err.msg ++ "\n"⟩,
     [Ev.invokeE, Ev.writeE (err.code.getD 500) (err.msg ++ "\n")])

end Httph

namespace Httph

/-! ## Helper lemmas -/

theorem JSONHandler_decode_ok {Req Res : Type} (cfg : JSONCfg Req Res)
    (body : BodyStream) (req : Req) (hd : decodeStage cfg body = .ok req) :
    (JSONHandler cfg body).1 = (afterDecode cfg req).1 ∧
    ((JSONHandler cfg body).2 = (afterDecode cfg req).2 ∨
     (JSONHandler cfg body).2 = Ev.decodeE true :: (afterDecode cfg req).2) := by
  unfold decodeStage at hd
  cases hL : (applyLimit cfg.maxSize body).data with
  | nil =>
    rw [hL] at hd
    simp only [Except.ok.injEq] at hd
    subst hd
    simp [JSONHandler, hL]
  | cons c cs =>
    rw [hL] at hd
    cases hj : cfg.jdecode (applyLimit cfg.maxSize body) with
    | error e => rw [hj] at hd; exact absurd hd (by simp)
    | ok r =>
      rw [hj] at hd
      simp only [Except.ok.injEq] at hd
      subst hd
      simp [JSONHandler, hL, hj]

theorem JSONHandler_nil_data {Req Res : Type} (cfg : JSONCfg Req Res)
    (terr : Option String) :
    JSONHandler cfg ⟨[], terr⟩ = afterDecode cfg cfg.zero := by
  have hL : (applyLimit cfg.maxSize ⟨[], terr⟩).data = [] := by
    cases cfg.maxSize <;> simp [applyLimit, maxBytesStream]
  simp [JSONHandler, hL]

theorem invokeE_mem_afterDecode {Req Res : Type} (cfg : JSONCfg Req Res) (req : Req) :
    Ev.invokeE ∈ (afterDecode cfg req).2 := by
  unfold afterDecode
  cases hh : cfg.h req with
  | error err => simp
  | ok res => cases he : cfg.encode res <;> simp [he]

end Httph

namespace Httph

/-- C2: the error-only adapter invokes the application function; on a nil
error it writes nothing further, so whatever the function wrote stands; on a
non-nil error it resolves the status via StatusCoded (default 500) and
writes that status with a plain-text body equal to the error message, which
is strictly shorter than (hence never equal to) the JSON Error Envelope of
the same message. -/
theorem ErrorHandler_contract (w : Option HttpResponse) (err : GoErr)
    (r : HttpResponse) :
    ErrorHandler (some r) none = (some r, [Ev.invokeE, Ev.writeE r.status r.body]) ∧
    ErrorHandler none none = (none, [Ev.invokeE]) ∧
    (ErrorHandler w (some err)).1 = some ⟨err.code.getD 500, err.msg ++ "\n"⟩ ∧
    Ev.invokeE ∈ (ErrorHandler w (some err)).2 ∧
    (err.msg ++ "\n").length + 12 = (errorEnvelope err.msg).length := by
  refine ⟨rfl, rfl, rfl, by simp [ErrorHandler], ?_⟩
  have h1 : ("\x7b\"Error\":\"" : String).length = 10 := by decide
  have h2 : ("\"\x7d\n" : String).length = 3 := by decide
  have h3 : ("\n" : String).length = 1 := by decide
  simp only [errorEnvelope, String.length_append, h1, h2, h3]
  omega

/-- C5: when the JSON adapter application function returns a non-nil error,
the response status is the error StatusCoded code when present and 500
otherwise, and the body is exactly the Error Envelope carrying the error
message. -/
theorem JSONHandler_handler_error {Req Res : Type} (cfg : JSONCfg Req Res)
    (body : BodyStream) (req : Req) (err : GoErr)
    (hd : decodeStage cfg body = .ok req) (hh : cfg.h req = .error err) :
    (JSONHandler cfg body).1 = ⟨err.code.getD 500, errorEnvelope err.msg⟩ := by
  rw [(JSONHandler_decode_ok cfg body req hd).1]
  simp [afterDecode, hh]

/-- C6: when the JSON adapter application function succeeds and the response
value serializes successfully, the status is the response StatusCoded code
when present and 200 otherwise, and the body is the buffered encoding copied
verbatim. -/
theorem JSONHandler_success {Req Res : Type} (cfg : JSONCfg Req Res)
    (body : BodyStream) (req : Req) (res : Res) (buf : String)
    (hd : decodeStage cfg body = .ok req) (hh : cfg.h req = .ok res)
    (he : cfg.encode res = .ok buf) :
    (JSONHandler cfg body).1 = ⟨(cfg.resCode res).getD 200, buf⟩ := by
  rw [(JSONHandler_decode_ok cfg body req hd).1]
  simp [afterDecode, hh, he]

/-- C7: a request body with zero readable bytes skips JSON decoding, reports
no error, and the zero-valued request is passed to the application function
(the handler behaves exactly as the post-decode pipeline on the zero
value). -/
theorem JSONHandler_empty_body {Req Res : Type} (cfg : JSONCfg Req Res)
    (terr : Option String) :
    JSONHandler cfg ⟨[], terr⟩ = afterDecode cfg cfg.zero ∧
    Ev.invokeE ∈ (JSONHandler cfg ⟨[], terr⟩).2 := by
  have h1 := JSONHandler_nil_data cfg terr
  exact ⟨h1, by rw [h1]; exact invokeE_mem_afterDecode cfg cfg.zero⟩

/-- C10: when peeking the first body byte fails for any reason, a mid-stream
read error included, the adapter proceeds with the zero-valued request
exactly as for an absent body, and the read failure never surfaces in the
response or the trace. -/
theorem JSONHandler_peek_error_silent {Req Res : Type} (cfg : JSONCfg Req Res)
    (e : String) :
    JSONHandler cfg ⟨[], some e⟩ = JSONHandler cfg ⟨[], none⟩ ∧
    JSONHandler cfg ⟨[], some e⟩ = afterDecode cfg cfg.zero ∧
    Ev.invokeE ∈ (JSONHandler cfg ⟨[], some e⟩).2 := by
  have hs := JSONHandler_nil_data cfg (some e)
  have hn := JSONHandler_nil_data cfg none
  exact ⟨hs.trans hn.symm, hs,
    by rw [hs]; exact invokeE_mem_afterDecode cfg cfg.zero⟩

end Httph

namespace Httph

theorem afterDecode_cases {Req Res : Type} (cfg : JSONCfg Req Res) (req : Req) :
    (∃ err : GoErr, cfg.h req = .error err ∧
      afterDecode cfg req =
        (⟨err.code.getD 500, errorEnvelope err.msg⟩,
         [Ev.invokeE, Ev.writeE (err.code.getD 500) (errorEnvelope err.msg)])) ∨
    (∃ res e, cfg.h req = .ok res ∧ cfg.encode res = .error e ∧
      afterDecode cfg req =
        (⟨500, errorEnvelope ("error encoding response body as JSON: " ++ e)⟩,
         [Ev.invokeE, Ev.encodeE false,
          Ev.writeE 500 (errorEnvelope ("error encoding response body as JSON: " ++ e))])) ∨
    (∃ res buf, cfg.h req = .ok res ∧ cfg.encode res = .ok buf ∧
      afterDecode cfg req =
        (⟨(cfg.resCode res).getD 200, buf⟩,
         [Ev.invokeE, Ev.encodeE true,
          Ev.writeE ((cfg.resCode res).getD 200) buf])) := by
  cases hh : cfg.h req with
  | error err => exact Or.inl ⟨err, rfl, by simp [afterDecode, hh]⟩
  | ok res =>
    cases he : cfg.encode res with
    | error e =>
      exact Or.inr (Or.inl ⟨res, e, rfl, he, by simp [afterDecode, hh, he]⟩)
    | ok buf =>
      exact Or.inr (Or.inr ⟨res, buf, rfl, he, by simp [afterDecode, hh, he]⟩)

/-- C4: the JSON adapter serializes the response value into a buffer before
committing anything; a serialization failure yields status 500 with the
encode Error Envelope and that envelope is the only committed write, no
success bytes; on success the status and buffer are committed only after the
successful encode event. -/
theorem JSONHandler_encode_buffered {Req Res : Type} (cfg : JSONCfg Req Res)
    (body : BodyStream) (req : Req) (res : Res)
    (hd : decodeStage cfg body = .ok req) (hh : cfg.h req = .ok res) :
    (∀ e, cfg.encode res = .error e →
      (JSONHandler cfg body).1 =
        ⟨500, errorEnvelope ("error encoding response body as JSON: " ++ e)⟩ ∧
      writes (JSONHandler cfg body).2 =
        [(500, errorEnvelope ("error encoding response body as JSON: " ++ e))]) ∧
    (∀ buf, cfg.encode res = .ok buf →
      ∃ pre, (JSONHandler cfg body).2 =
        pre ++ [Ev.encodeE true, Ev.writeE ((cfg.resCode res).getD 200) buf]) := by
  obtain ⟨h1, h2⟩ := JSONHandler_decode_ok cfg body req hd
  constructor
  · intro e he
    refine ⟨by rw [h1]; simp [afterDecode, hh, he], ?_⟩
    rcases h2 with h2 | h2 <;> rw [h2] <;> simp [afterDecode, hh, he, writes]
  · intro buf he
    rcases h2 with h2 | h2 <;> rw [h2]
    · exact ⟨[Ev.invokeE], by simp [afterDecode, hh, he]⟩
    · exact ⟨[Ev.decodeE true, Ev.invokeE], by simp [afterDecode, hh, he]⟩

end Httph

namespace Httph

/-- C3: for every request handled by any of the three adapters, the decode,
validate, invoke and encode stage events occur in strictly increasing
lifecycle order, no stage is entered once an earlier stage has failed, and
the trace commits exactly one complete response equal to the returned one
(or none at all in the error-only adapter when the function wrote nothing
and returned nil). -/
theorem adapters_stage_discipline {Req Res : Type}
    (shape : List Field) (validateCap : Option (List FVal → Option String))
    (app : List FVal → HttpResponse)
    (parsed : Except String (List (String × List String)))
    (cfg : JSONCfg Req Res) (body : BodyStream)
    (w : Option HttpResponse) (e : Option GoErr) :
    (strictIncr (stageEvents (FormHandler shape validateCap app parsed).2) = true ∧
     noStageAfterFailure (FormHandler shape validateCap app parsed).2 = true ∧
     writes (FormHandler shape validateCap app parsed).2 =
       [((FormHandler shape validateCap app parsed).1.status,
         (FormHandler shape validateCap app parsed).1.body)]) ∧
    (strictIncr (stageEvents (JSONHandler cfg body).2) = true ∧
     noStageAfterFailure (JSONHandler cfg body).2 = true ∧
     writes (JSONHandler cfg body).2 =
       [((JSONHandler cfg body).1.status, (JSONHandler cfg body).1.body)]) ∧
    (strictIncr (stageEvents (ErrorHandler w e).2) = true ∧
     noStageAfterFailure (ErrorHandler w e).2 = true ∧
     writes (ErrorHandler w e).2 =
       ((ErrorHandler w e).1.map (fun r => (r.status, r.body))).toList) := by
  refine ⟨?_, ?_, ?_⟩
  · rcases parsed with e0 | form
    · exact ⟨rfl, rfl, rfl⟩
    · cases hw : WeakDecode shape (prepareForm form) with
      | error e0 =>
        simp only [FormHandler, hw]
        exact ⟨rfl, rfl, rfl⟩
      | ok v =>
        cases validateCap with
        | none =>
          simp only [FormHandler, hw]
          exact ⟨rfl, rfl, rfl⟩
        | some f =>
          cases hv : f v with
          | none =>
            simp only [FormHandler, hw, hv]
            exact ⟨rfl, rfl, rfl⟩
          | some cause =>
            simp only [FormHandler, hw, hv]
            exact ⟨rfl, rfl, rfl⟩
  · cases hL : (applyLimit cfg.maxSize body).data with
    | nil =>
      simp only [JSONHandler, hL]
      rcases afterDecode_cases cfg cfg.zero with
        ⟨err, _, hEq⟩ | ⟨res, e0, _, _, hEq⟩ | ⟨res, buf, _, _, hEq⟩ <;>
        rw [hEq] <;> exact ⟨rfl, rfl, rfl⟩
    | cons c cs =>
      cases hj : cfg.jdecode (applyLimit cfg.maxSize body) with
      | error e0 =>
        simp only [JSONHandler, hL, hj]
        exact ⟨rfl, rfl, rfl⟩
      | ok req =>
        simp only [JSONHandler, hL, hj]
        rcases afterDecode_cases cfg req with
          ⟨err, _, hEq⟩ | ⟨res, e0, _, _, hEq⟩ | ⟨res, buf, _, _, hEq⟩ <;>
          rw [hEq] <;> exact ⟨rfl, rfl, rfl⟩
  · rcases e with _ | err
    · rcases w with _ | r
      · exact ⟨rfl, rfl, rfl⟩
      · exact ⟨rfl, rfl, rfl⟩
    · exact ⟨rfl, rfl, rfl⟩

end Httph

namespace Httph

theorem lookupCI_skip (k : String) (v : FormVal) (form : List (String × FormVal))
    (name : String) (hne : lowerEq k name = false) :
    lookupCI ((k, v) :: form) name = lookupCI form name := by
  simp [lookupCI, hne]

theorem WeakDecode_unknown_key (shape : List Field) (k : String) (v : FormVal)
    (form : List (String × FormVal))
    (h : ∀ fld ∈ shape, lowerEq k fld.name = false) :
    WeakDecode shape ((k, v) :: form) = WeakDecode shape form := by
  induction shape with
  | nil => rfl
  | cons fld rest ih =>
    have hdf : decodeField ((k, v) :: form) fld = decodeField form fld := by
      unfold decodeField
      rw [lookupCI_skip k v form fld.name (h fld (List.mem_cons_self _ _))]
    simp only [WeakDecode]
    rw [hdf, ih (fun f hf => h f (List.mem_cons_of_mem _ hf))]

/-- C9: the weak form decoder, on a flat multi-valued mapping matched
case-insensitively against the target shape, passes strings through
unchanged, coerces true and false to booleans and numeric strings to
integers, gives an ordered-string-list field the submitted list in order,
wraps a single string into a one-element list for a sequence field, ignores
keys matching no field, leaves missing fields at their zero value, and the
adapter prepares single-valued keys as single strings and multi-valued keys
as ordered lists. -/
theorem WeakDecode_coercions (form : List (String × FormVal)) (name s : String)
    (n : Int) (vs : List String) (ty : FTy) (shape : List Field) (k : String)
    (v : FormVal) (rest : List (String × List String)) (vs2 : List String) :
    (lookupCI form name = some (.single s) →
      decodeField form ⟨name, .str⟩ = .ok (.vStr s)) ∧
    (lookupCI form name = some (.single "true") →
      decodeField form ⟨name, .bool⟩ = .ok (.vBool true)) ∧
    (lookupCI form name = some (.single "false") →
      decodeField form ⟨name, .bool⟩ = .ok (.vBool false)) ∧
    (lookupCI form name = some (.single s) → parseGoInt s = some n →
      decodeField form ⟨name, .int⟩ = .ok (.vInt n)) ∧
    (lookupCI form name = some (.multi vs) →
      decodeField form ⟨name, .strList⟩ = .ok (.vStrList vs)) ∧
    (lookupCI form name = some (.single s) →
      decodeField form ⟨name, .strList⟩ = .ok (.vStrList [s])) ∧
    (lookupCI form name = none →
      decodeField form ⟨name, ty⟩ = .ok (zeroVal ty)) ∧
    ((∀ fld ∈ shape, lowerEq k fld.name = false) →
      WeakDecode shape ((k, v) :: form) = WeakDecode shape form) ∧
    (prepareForm ((k, [s]) :: rest) = (k, .single s) :: prepareForm rest) ∧
    (2 ≤ vs2.length →
      prepareForm ((k, vs2) :: rest) = (k, .multi vs2) :: prepareForm rest) := by
  refine ⟨?_, ?_, ?_, ?_, ?_, ?_, ?_, ?_, ?_, ?_⟩
  · intro h
    simp only [decodeField, h]
    rfl
  · intro h
    simp only [decodeField, h]
    rfl
  · intro h
    simp only [decodeField, h]
    rfl
  · intro h h2
    simp only [decodeField, h, coerceSingle, h2]
  · intro h
    simp only [decodeField, h]
    rfl
  · intro h
    simp only [decodeField, h]
    rfl
  · intro h
    simp only [decodeField, h]
  · exact WeakDecode_unknown_key shape k v form
  · simp [prepareForm]
  · intro h
    have h2 : vs2.length > 1 := by omega
    simp [prepareForm, h2]

end Httph

namespace Httph

/-- The Validatable capability of the validatedJSONReq test shape
(httph_test.go lines 146-155): an empty name is rejected. -/
def validateName (name : String) : Option String :=
  if name = "" then some "name cannot be empty" else none

/-- The JSON body of the failing request of the validation claim. -/
def nameEmptyBody : List Char := "\x7b\"Name\":\"\"\x7d".data

/-- The JSON adapter instantiated at the validatedJSONReq shape: the request
value is its Name field, the decoder recognises the failing request body,
the Validatable capability is present, and the application function returns
nil, nil as in the repository test (the json encoding of nil is null). -/
def validatedJSONCfg : JSONCfg String Unit :=
  ⟨"", none,
   fun b => if b.data = nameEmptyBody then .ok "" else .error "unexpected EOF",
   some validateName,
   fun _ => .ok (),
   fun _ => .ok "null\n",
   fun _ => none⟩

/-- C1 (code bug): the source JSONHandler never probes the Validatable
capability. At the failing input the decoded value carries an empty name and
is rejected by Validate, yet the application function is invoked and the
response is 200 null, where the claim, the spec (section 4.5 step 3) and the
repository test (TestJSONHandler, returns bad request if request body fails
validation) all require 400 with the Error Envelope message invalid request
body: name cannot be empty and no invocation. The form adapter half of the
claim does hold in the source (FormHandler lines 48-53). -/
theorem JSONHandler_skips_validation :
    decodeStage validatedJSONCfg ⟨nameEmptyBody, none⟩ = .ok "" ∧
    validatedJSONCfg.validate = some validateName ∧
    validateName "" = some "name cannot be empty" ∧
    (JSONHandler validatedJSONCfg ⟨nameEmptyBody, none⟩).1 = ⟨200, "null\n"⟩ ∧
    Ev.invokeE ∈ (JSONHandler validatedJSONCfg ⟨nameEmptyBody, none⟩).2 := by
  refine ⟨rfl, rfl, rfl, rfl, by decide⟩

/-- Configuration whose response value cannot be serialized, mirroring the
repository test returning a channel value. -/
def encodeFailCfg : JSONCfg Unit Unit :=
  ⟨(), none, fun _ => .ok (), none, fun _ => .ok (),
   fun _ => .error "json: unsupported type: chan int", fun _ => none⟩

/-- Witness for the buffered-encode claim at a concrete configuration whose
response value cannot be serialized. -/
theorem JSONHandler_encode_buffered_witness :
    (JSONHandler encodeFailCfg ⟨[], none⟩).1 =
      ⟨500, errorEnvelope ("error encoding response body as JSON: " ++
        "json: unsupported type: chan int")⟩ ∧
    writes (JSONHandler encodeFailCfg ⟨[], none⟩).2 =
      [(500, errorEnvelope ("error encoding response body as JSON: " ++
        "json: unsupported type: chan int"))] :=
  (JSONHandler_encode_buffered encodeFailCfg ⟨[], none⟩ () () rfl rfl).1
    "json: unsupported type: chan int" rfl

/-- Configuration whose application function fails with a StatusCoded error,
mirroring the teapot test. -/
def handlerErrCfg : JSONCfg Unit Unit :=
  ⟨(), none, fun _ => .ok (), none, fun _ => .error ⟨"oh no", some 418⟩,
   fun _ => .ok "null\n", fun _ => none⟩

/-- Witness for the handler-error claim at a concrete configuration. -/
theorem JSONHandler_handler_error_witness :
    (JSONHandler handlerErrCfg ⟨[], none⟩).1 = ⟨418, errorEnvelope "oh no"⟩ :=
  JSONHandler_handler_error handlerErrCfg ⟨[], none⟩ () ⟨"oh no", some 418⟩ rfl rfl

/-- Configuration with a successfully serializable response value and no
StatusCoded capability. -/
def successCfg : JSONCfg Unit Unit :=
  ⟨(), none, fun _ => .ok (), none, fun _ => .ok (),
   fun _ => .ok "\x7b\"Message\":\"Hello Me\"\x7d\n", fun _ => none⟩

/-- Witness for the success claim at a concrete configuration. -/
theorem JSONHandler_success_witness :
    (JSONHandler successCfg ⟨[], none⟩).1 =
      ⟨200, "\x7b\"Message\":\"Hello Me\"\x7d\n"⟩ :=
  JSONHandler_success successCfg ⟨[], none⟩ () ()
    "\x7b\"Message\":\"Hello Me\"\x7d\n" rfl rfl rfl

/-- The prepared form map of the spec example
name=Me, age=20, accept=true, hobbies=Hats,Goats. -/
def exForm : List (String × FormVal) :=
  prepareForm [("name", ["Me"]), ("age", ["20"]), ("accept", ["true"]),
               ("hobbies", ["Hats", "Goats"])]

/-- Witness for the weak-decoder claim at the spec example mapping. -/
theorem WeakDecode_coercions_witness :
    decodeField exForm ⟨"Name", .str⟩ = .ok (.vStr "Me") ∧
    decodeField exForm ⟨"Age", .int⟩ = .ok (.vInt 20) ∧
    decodeField exForm ⟨"Accept", .bool⟩ = .ok (.vBool true) ∧
    decodeField exForm ⟨"Hobbies", .strList⟩ = .ok (.vStrList ["Hats", "Goats"]) ∧
    decodeField exForm ⟨"Name", .strList⟩ = .ok (.vStrList ["Me"]) ∧
    decodeField exForm ⟨"Missing", .int⟩ = .ok (zeroVal .int) ∧
    WeakDecode [⟨"Age", .int⟩] (("unknown", .single "5") :: exForm) =
      WeakDecode [⟨"Age", .int⟩] exForm ∧
    prepareForm [("name", ["Me"])] = [("name", .single "Me")] ∧
    prepareForm [("hobbies", ["Hats", "Goats"])] =
      [("hobbies", .multi ["Hats", "Goats"])] := by
  refine ⟨?_, ?_, ?_, ?_, ?_, ?_, ?_, ?_, ?_⟩
  · exact (WeakDecode_coercions exForm "Name" "Me" 0 [] .str [] "" (.single "")
      [] []).1 (by decide)
  · exact (WeakDecode_coercions exForm "Age" "20" 20 [] .int [] "" (.single "")
      [] []).2.2.2.1 (by decide) (by decide)
  · exact (WeakDecode_coercions exForm "Accept" "true" 0 [] .bool [] ""
      (.single "") [] []).2.1 (by decide)
  · exact (WeakDecode_coercions exForm "Hobbies" "" 0 ["Hats", "Goats"] .strList
      [] "" (.single "") [] []).2.2.2.2.1 (by decide)
  · exact (WeakDecode_coercions exForm "Name" "Me" 0 [] .strList [] ""
      (.single "") [] []).2.2.2.2.2.1 (by decide)
  · exact (WeakDecode_coercions exForm "Missing" "" 0 [] .int [] ""
      (.single "") [] []).2.2.2.2.2.2.1 (by decide)
  · exact (WeakDecode_coercions exForm "" "" 0 [] .int [⟨"Age", .int⟩]
      "unknown" (.single "5") [] []).2.2.2.2.2.2.2.1 (by decide)
  · exact (WeakDecode_coercions [] "" "Me" 0 [] .int [] "name" (.single "")
      [] []).2.2.2.2.2.2.2.2.1
  · exact (WeakDecode_coercions [] "" "" 0 ["Hats", "Goats"] .int [] "hobbies"
      (.single "") [] ["Hats", "Goats"]).2.2.2.2.2.2.2.2.2 (by decide)

end Httph
